import Mathlib

/-!
Shallow embedding of `src/app_consulta_cnpj.py`, a spreadsheet enrichment
tool: the `CNPJCache` read-through cache, the `fetch_cnpj_data` remote
lookup, and the `CNPJProcessor.run` enrichment loop, together with theorems
checking the specification's claims against this embedding.

Modelling conventions:
* Spreadsheet cells are modelled after Python's `str()` coercion, so a row
  is an association list from column name to the cell's string form, and a
  dataset (`Df`) is a column-name list plus a row list.
* A payload (a parsed JSON object) is an association list from field name
  to value string; Python dict truthiness (`if data:` / `if not data:`) is
  non-emptiness, captured by `truthy`.
* Timestamps are integers in seconds; `timedelta(days=30)` is `30 * 86400`.
* `int((index + 1) / total_rows * 100)` is computed by Python in IEEE-754
  binary64 arithmetic; `pyProgress` models it exactly: the correctly
  rounded (round-to-nearest, ties-to-even) double of the exact integer
  ratio — which is what both hardware division of exactly converted small
  ints and CPython's big-int true division produce — then a correctly
  rounded multiplication by the exact double `100.0`, then truncation
  toward zero. The exponent is unbounded (no overflow or underflow is
  reachable for a dataset of any physical size). The exact rational floor
  `(index + 1) * 100 / total_rows` differs from this at reachable inputs:
  at row index 28 of 50 the program emits 57 while the exact floor is 58.
* Exceptions are modelled where the control flow of `run` depends on them:
  reading a missing `CNPJ` column raises `KeyError` at line 59, and the
  per-row handler of line 74 then evaluates its log message, which mentions
  the local variable `cnpj`; when no earlier row has bound that variable,
  the handler itself raises `UnboundLocalError`, which escapes to the outer
  handler and aborts the run (`RowStep.abortRun`).
* Functions that the Python code guarantees never to raise are embedded as
  total Lean functions.
-/

/-- A parsed JSON object: field name to value, Python dict semantics via
association-list lookup. -/
abbrev Payload := List (String × String)

/-- One spreadsheet row: column name to the cell's string form. -/
abbrev Row := List (String × String)

/-- The dataset: named columns plus rows (pandas DataFrame as used here). -/
structure Df where
  columns : List String
  rows : List Row
  deriving Repr, DecidableEq

/-- Python truthiness of `data` after payload resolution: `None` and the
empty dict are falsy, a non-empty dict is truthy. -/
def truthy : Option Payload → Bool
  | none => false
  | some d => !d.isEmpty

/-- Python `str.zfill` body for a string shorter than the width: zeros are
inserted after a leading `'+'` or `'-'` sign character, otherwise plainly
on the left. -/
def zfillAux (w : Nat) : List Char → List Char
  | [] => List.replicate w '0'
  | c :: rest =>
    if c = '+' ∨ c = '-' then c :: (List.replicate (w - (c :: rest).length) '0' ++ rest)
    else List.replicate (w - (c :: rest).length) '0' ++ (c :: rest)

/-- Python `str.zfill` (line 59: `str(row['CNPJ']).zfill(14)`): a string at
least as long as the width is returned unchanged. -/
def zfill (s : String) (w : Nat) : String :=
  if w ≤ s.length then s else ⟨zfillAux w s.data⟩

/-- Python `str.replace` on character lists: replace every non-overlapping
occurrence of `old`, scanning left to right. The fuel argument is the input
length, which the scan never exhausts. -/
def pyReplaceAux (old new : List Char) : Nat → List Char → List Char
  | _, [] => []
  | 0, l => l
  | fuel + 1, c :: rest =>
    if old.isPrefixOf (c :: rest) then
      new ++ pyReplaceAux old new fuel (rest.drop (old.length - 1))
    else
      c :: pyReplaceAux old new fuel rest

/-- Python `str.replace` (line 80: every occurrence of `old` in `s` is
replaced, not only a trailing extension). -/
def pyReplace (s old new : String) : String :=
  ⟨pyReplaceAux old.data new.data s.data.length s.data⟩

/-- Bit length of a natural number, with explicit fuel so the kernel can
evaluate it: for `1 ≤ n`, `2 ^ (nbits fuel n - 1) ≤ n < 2 ^ nbits fuel n`. -/
def nbits : Nat → Nat → Nat
  | 0, _ => 0
  | f + 1, n => if n = 0 then 0 else nbits f (n / 2) + 1

def bitlen (n : Nat) : Nat := nbits n n

/-- Round-to-nearest-even of the rational `a / b` to an integer: the
rounding CPython and IEEE-754 use. -/
def rneInt (a b : Nat) : Nat :=
  if 2 * (a % b) < b then a / b
  else if b < 2 * (a % b) then a / b + 1
  else if (a / b) % 2 = 0 then a / b else a / b + 1

/-- Decide `c ≤ a * 2 ^ t` over the integers, for either sign of `t`. -/
def scaleCmp (c a : Nat) (t : Int) : Bool :=
  if 0 ≤ t then decide (c ≤ a * 2 ^ t.toNat) else decide (c * 2 ^ (-t).toNat ≤ a)

/-- `(a / b) * 2 ^ t` written as a ratio of naturals. -/
def scaledPair (a b : Nat) (t : Int) : Nat × Nat :=
  if 0 ≤ t then (a * 2 ^ t.toNat, b) else (a, b * 2 ^ (-t).toNat)

/-- The scaling exponent that brings `(a / b) * 2 ^ t` into the binary64
significand window `[2^52, 2^53)`. -/
def pickT (a b : Nat) : Int :=
  let t0 : Int := 52 + (bitlen b : Int) - (bitlen a : Int)
  if ¬ scaleCmp (2 ^ 52 * b) a t0 then t0 + 1
  else if scaleCmp (2 ^ 53 * b) a t0 then t0 - 1
  else t0

/-- The correctly rounded binary64 double of the exact ratio `a / b`, as
a normalized mantissa-exponent pair `(m, e)` with value `m * 2 ^ e` and
`m ∈ [2^52, 2^53)`. This is what Python's `(index + 1) / total_rows`
evaluates to: hardware IEEE division of exactly converted operands, and
CPython's correctly rounded big-int true division, both round the exact
ratio once to nearest-even. -/
def fpOfRatio (a b : Nat) : Nat × Int :=
  let t := pickT a b
  let p := scaledPair a b t
  let m := rneInt p.1 p.2
  if m = 2 ^ 53 then (2 ^ 52, 1 - t) else (m, -t)

/-- The correctly rounded binary64 product of a normalized double with
the exact double `100.0` (the `* 100` of line 77). -/
def fpMul100 (p : Nat × Int) : Nat × Int :=
  let mm := p.1 * 100
  let sh := bitlen mm - 53
  let m := rneInt mm (2 ^ sh)
  if m = 2 ^ 53 then (2 ^ 52, p.2 + sh + 1) else (m, p.2 + sh)

/-- Python `int()` truncation toward zero of a nonnegative double. -/
def truncToNat (p : Nat × Int) : Nat :=
  if 0 ≤ p.2 then p.1 * 2 ^ p.2.toNat else p.1 / 2 ^ (-p.2).toNat

/-- Line 77, `int((index + 1) / total_rows * 100)`, evaluated exactly as
IEEE-754 binary64: divide, multiply by 100, truncate. The `n = 0` guard is
never reached, because the loop body does not run on an empty dataset. -/
def pyProgress (n i : Nat) : Nat :=
  if n = 0 then 0 else truncToNat (fpMul100 (fpOfRatio (i + 1) n))

/-- Specification-side value of a mantissa-exponent pair, as a rational. -/
def fpVal (p : Nat × Int) : ℚ := (p.1 : ℚ) * 2 ^ p.2

/-- Python dict insertion on the cache's association list: overwrite in
place when the key exists, append otherwise. -/
def insertA (l : List (String × (Payload × Int))) (k : String) (v : Payload × Int) :
    List (String × (Payload × Int)) :=
  if (List.lookup k l).isSome then l.map (fun kv => if kv.1 = k then (k, v) else kv)
  else l ++ [(k, v)]

/-- The in-memory cache: identifier to (payload, recordedAt). -/
structure CNPJCache where
  cache : List (String × (Payload × Int))
  deriving Repr, DecidableEq

/-- What the backing cache file held when the cache was constructed. -/
inductive CacheFile
  | missing
  | unparseable
  | parsed (entries : List (String × (Payload × Int)))
  deriving Repr

/-- `CNPJCache.load_cache` (lines 19-24): a missing file
(`FileNotFoundError`) or an unparseable body (`json.JSONDecodeError`) is
caught and yields the empty dict; totality models "no exception reaches
the caller" for those two cases. -/
def CNPJCache.load_cache : CacheFile → List (String × (Payload × Int))
  | .missing => []
  | .unparseable => []
  | .parsed entries => entries

/-- `CNPJCache.get` (lines 30-35): the stored payload when an entry exists
and is younger than 30 days, `None` otherwise; the stale entry is not
deleted (this function is pure and returns only the payload). -/
def CNPJCache.get (c : CNPJCache) (now : Int) (cnpj : String) : Option Payload :=
  match List.lookup cnpj c.cache with
  | some (data, ts) => if now - ts < 30 * 86400 then some data else none
  | none => none

/-- Result of `CNPJCache.set`: the new in-memory cache and the snapshot
`save_cache` wrote to the backing file. -/
structure SetResult where
  cache : CNPJCache
  fileWritten : List (String × (Payload × Int))
  deriving Repr, DecidableEq

/-- `CNPJCache.set` (lines 37-39): insert or overwrite the entry with
`recordedAt = now`, then `save_cache` synchronously writes the entire dict
to the backing file. -/
def CNPJCache.set (c : CNPJCache) (now : Int) (cnpj : String) (data : Payload) : SetResult :=
  let c2 : CNPJCache := ⟨insertA c.cache cnpj (data, now)⟩
  ⟨c2, c2.cache⟩

/-- An HTTP response as `requests` delivers it: the final status code and
the result of `response.json()` (`none` when the body is unparseable). -/
structure HttpResponse where
  status : Nat
  body : Option Payload
  deriving Repr

/-- Outcome of `requests.get`: a transport failure raising
`RequestException`, or a delivered response. -/
inductive FetchOutcome
  | transportError
  | response (r : HttpResponse)
  deriving Repr

/-- `CNPJProcessor.fetch_cnpj_data` (lines 90-98): `requests.get`, then
`raise_for_status` — which raises `HTTPError` exactly for statuses
400..599 — then `response.json()`. Every `RequestException` (transport
failure, HTTP error status, JSON decode failure) is caught and mapped to
`None`; totality of this function models "never raises to its caller". -/
def fetch_cnpj_data : FetchOutcome → Option Payload
  | .transportError => none
  | .response r => if 400 ≤ r.status ∧ r.status < 600 then none else r.body

/-- `df.at[index, key] = v` restricted to the current row: overwrite the
cell when the column label exists in the row, append it otherwise. -/
def setCell (row : Row) (key v : String) : Row :=
  if (List.lookup key row).isSome then
    row.map (fun kv => if kv.1 = key then (key, v) else kv)
  else row ++ [(key, v)]

/-- Lines 67-69: `for key in self.fields_to_update: if key in data:
df.at[index, key] = data[key]`. The source performs no column-existence
check; a `.at` assignment to a column label that is not present enlarges
the frame (pandas setting-with-enlargement), so the new column is appended
to the dataset's column list. -/
def updateFields (fields : List String) (data : Payload) (row : Row) (cols : List String) :
    Row × List String :=
  match fields with
  | [] => (row, cols)
  | key :: rest =>
    match List.lookup key data with
    | some v =>
      updateFields rest data (setCell row key v) (if key ∈ cols then cols else cols ++ [key])
    | none => updateFields rest data row cols

/-- Outcome of one iteration of the row loop: the updated row, column list,
cache, the identifier the iteration left bound, and whether
`fetch_cnpj_data` was invoked — or an abort when an exception escaped the
per-row handler. -/
inductive RowStep
  | ok (row : Row) (cols : List String) (cache : CNPJCache) (cnpj : String) (fetchCalled : Bool)
  | abortRun
  deriving Repr

def RowStep.outRow : RowStep → Row
  | .ok r _ _ _ _ => r
  | .abortRun => []

def RowStep.outCols : RowStep → List String
  | .ok _ c _ _ _ => c
  | .abortRun => []

def RowStep.outCache : RowStep → CNPJCache
  | .ok _ _ c _ _ => c
  | .abortRun => ⟨[]⟩

def RowStep.fetchCalled : RowStep → Bool
  | .ok _ _ _ _ fc => fc
  | .abortRun => false

/-- Lines 58-75, the body of one row iteration. Reading a missing `CNPJ`
column raises `KeyError`; the handler's log message then evaluates the
local `cnpj`, which aborts the whole run (`UnboundLocalError`) when no
earlier iteration bound it, and otherwise logs the previous row's
identifier and continues. On a readable identifier: canonicalize with
`zfill`, resolve via `cache.get`, fall back to `fetch_cnpj_data` when the
cached result is falsy (`if not data:`), store a truthy fetched payload
via `cache.set`, and merge the selected fields when the final payload is
truthy (`if data:`). -/
def rowStep (fields : List String) (remote : String → FetchOutcome) (now : Int)
    (lastCnpj : Option String) (row : Row) (cols : List String) (cache : CNPJCache) : RowStep :=
  match List.lookup "CNPJ" row with
  | none =>
    match lastCnpj with
    | none => .abortRun
    | some c => .ok row cols cache c false
  | some cell =>
    let cnpj := zfill cell 14
    let cached := cache.get now cnpj
    if truthy cached then
      let rc := updateFields fields (cached.getD []) row cols
      .ok rc.1 rc.2 cache cnpj false
    else
      let fetched := fetch_cnpj_data (remote cnpj)
      if truthy fetched then
        let cache2 := (cache.set now cnpj (fetched.getD [])).cache
        let rc := updateFields fields (fetched.getD []) row cols
        .ok rc.1 rc.2 cache2 cnpj true
      else
        .ok row cols cache cnpj true

/-- The three signals of `CNPJProcessor`: `progress_updated(pct)`,
`process_finished()` (which carries no payload in the source), and
`error_occurred(msg)`. -/
inductive Event
  | progress (pct : Nat)
  | finished
  | error
  deriving Repr, DecidableEq

/-- Result of the row loop: the updated rows, columns and cache plus the
emitted progress percentages, or an abort after the emitted prefix. -/
inductive LoopResult
  | done (rows : List Row) (cols : List String) (cache : CNPJCache) (ps : List Nat)
  | aborted (ps : List Nat)
  deriving Repr

def LoopResult.ps : LoopResult → List Nat
  | .done _ _ _ ps => ps
  | .aborted ps => ps

def LoopResult.isDone : LoopResult → Bool
  | .done _ _ _ _ => true
  | .aborted _ => false

/-- Lines 57-78: iterate the rows in order; after each non-aborting row
emit `int((index + 1) / total_rows * 100)` as the program computes it in
binary64 (`pyProgress`); an escaped exception stops the loop without
emitting that row's progress. -/
def runLoop (fields : List String) (remote : String → FetchOutcome) (now : Int) (n : Nat) :
    List Row → Nat → List Row → List String → CNPJCache → Option String → List Nat → LoopResult
  | [], _, acc, cols, cache, _, ps => .done acc cols cache ps
  | r :: rs, i, acc, cols, cache, last, ps =>
    match rowStep fields remote now last r cols cache with
    | .abortRun => .aborted ps
    | .ok r2 cols2 cache2 cnpj _ =>
      runLoop fields remote now n rs (i + 1) (acc ++ [r2]) cols2 cache2 (some cnpj)
        (ps ++ [pyProgress n i])

/-- Everything `CNPJProcessor.run` consumes from its environment: the input
path and selected fields, the outcome of `pd.read_excel` (`none` when the
load raises), the backing cache file's state, the remote service as an
oracle per identifier, the clock, and whether `df.to_excel` succeeds. -/
structure RunInput where
  filePath : String
  fields : List String
  loadResult : Option Df
  cacheFile : CacheFile
  remote : String → FetchOutcome
  now : Int
  writeOk : Bool

/-- Observable result of one run: the signals in emission order and the
output file written (path and dataset), if any. -/
structure RunResult where
  events : List Event
  written : Option (String × Df)

def totalRows (inp : RunInput) : Nat :=
  match inp.loadResult with
  | some df => df.rows.length
  | none => 0

/-- `CNPJProcessor.run` (lines 52-88): load the dataset (failure emits only
`error_occurred`), run the row loop, then write the dataset to
`self.file_path.replace('.xlsx', '_atualizado.xlsx')` and emit
`process_finished()`; any exception escaping the loop or the write emits
`error_occurred` instead, and never both terminals. -/
def CNPJProcessor.run (inp : RunInput) : RunResult :=
  match inp.loadResult with
  | none => ⟨[Event.error], none⟩
  | some df =>
    match runLoop inp.fields inp.remote inp.now df.rows.length df.rows 0 [] df.columns
        ⟨CNPJCache.load_cache inp.cacheFile⟩ none [] with
    | .aborted ps => ⟨ps.map Event.progress ++ [Event.error], none⟩
    | .done rows2 cols2 _ ps =>
      if inp.writeOk then
        ⟨ps.map Event.progress ++ [Event.finished],
          some (pyReplace inp.filePath ".xlsx" "_atualizado.xlsx", ⟨cols2, rows2⟩)⟩
      else ⟨ps.map Event.progress ++ [Event.error], none⟩

/-! ## Claim C2: remote lookup error handling -/

/-- Claim C2 counterexample: the claim says any non-success HTTP status
yields `None`, but `raise_for_status` raises only for statuses 400..599; a
delivered 302 response with a parseable JSON body is returned as a
payload, and 302 is not a success (2xx) status. -/
theorem C2_counterexample :
    fetch_cnpj_data (FetchOutcome.response ⟨302, some [("nome", "X")]⟩) = some [("nome", "X")] ∧
    ¬(200 ≤ 302 ∧ 302 < 300) := ⟨rfl, by omega⟩

/-- Claim C2 (amended): `fetch_cnpj_data` returns `None` on any transport
failure, on any status in 400..599 (the exact range `raise_for_status`
treats as an error), and on an unparseable body; on a 2xx status it
returns the parse result of the body. It never raises to its caller: in
the embedding it is a total function (`requests.RequestException`, which
since requests 2.27 includes the JSON decode error, is always caught). -/
theorem C2_fetch_amended (r : HttpResponse) :
    fetch_cnpj_data FetchOutcome.transportError = none ∧
    (400 ≤ r.status → r.status < 600 → fetch_cnpj_data (FetchOutcome.response r) = none) ∧
    (r.body = none → fetch_cnpj_data (FetchOutcome.response r) = none) ∧
    (200 ≤ r.status → r.status < 300 → fetch_cnpj_data (FetchOutcome.response r) = r.body) := by
  refine ⟨rfl, ?_, ?_, ?_⟩
  · intro h1 h2
    simp [fetch_cnpj_data, h1, h2]
  · intro hb
    by_cases h : 400 ≤ r.status ∧ r.status < 600 <;> simp [fetch_cnpj_data, h, hb]
  · intro h1 h2
    have h : ¬(400 ≤ r.status ∧ r.status < 600) := by omega
    simp [fetch_cnpj_data, h]

/-- Claim C2 witness: the amended theorem evaluated at a 404 response, a
500 response with an unparseable body, and a successful 200 response. -/
theorem C2_fetch_amended_witness :
    fetch_cnpj_data (FetchOutcome.response ⟨404, some [("nome", "A")]⟩) = none ∧
    fetch_cnpj_data (FetchOutcome.response ⟨500, none⟩) = none ∧
    fetch_cnpj_data (FetchOutcome.response ⟨200, some [("nome", "A")]⟩) = some [("nome", "A")] :=
  ⟨(C2_fetch_amended ⟨404, some [("nome", "A")]⟩).2.1 (by decide) (by decide),
   (C2_fetch_amended ⟨500, none⟩).2.2.1 rfl,
   (C2_fetch_amended ⟨200, some [("nome", "A")]⟩).2.2.2 (by decide) (by decide)⟩

/-! ## Claim C5: cache freshness window -/

/-- Claim C5: `CNPJCache.get` returns the stored payload exactly when the
entry is younger than 30 days; an entry recorded at `T` is returned at
`T + 29` days and treated as absent at `T + 31` days. `get` is embedded as
a pure function returning only the payload, which is the "does not delete
the stale entry" behaviour of lines 30-35. -/
theorem C5_cache_freshness (entries : List (String × (Payload × Int))) (id : String)
    (p : Payload) (T now : Int) (h : List.lookup id entries = some (p, T)) :
    (CNPJCache.get ⟨entries⟩ now id = some p ↔ now - T < 30 * 86400) ∧
    CNPJCache.get ⟨entries⟩ (T + 29 * 86400) id = some p ∧
    CNPJCache.get ⟨entries⟩ (T + 31 * 86400) id = none := by
  have hget : ∀ t : Int, CNPJCache.get ⟨entries⟩ t id
      = if t - T < 30 * 86400 then some p else none := by
    intro t
    simp only [CNPJCache.get, h]
  refine ⟨?_, ?_, ?_⟩
  · rw [hget]
    constructor
    · intro hs
      by_contra hc
      rw [if_neg hc] at hs
      exact Option.noConfusion hs
    · intro hf
      rw [if_pos hf]
  · rw [hget, if_pos (by omega)]
  · rw [hget, if_neg (by omega)]

/-- Claim C5 witness: a concrete entry recorded at time 0 is returned 29
days later and absent 31 days later. -/
theorem C5_cache_freshness_witness :
    (CNPJCache.get ⟨[("00000000001234", ([("nome", "A")], 0))]⟩ (29 * 86400) "00000000001234"
        = some [("nome", "A")] ↔ (29 * 86400 : Int) - 0 < 30 * 86400) ∧
    CNPJCache.get ⟨[("00000000001234", ([("nome", "A")], 0))]⟩ ((0 : Int) + 29 * 86400)
        "00000000001234" = some [("nome", "A")] ∧
    CNPJCache.get ⟨[("00000000001234", ([("nome", "A")], 0))]⟩ ((0 : Int) + 31 * 86400)
        "00000000001234" = none :=
  C5_cache_freshness [("00000000001234", ([("nome", "A")], 0))] "00000000001234"
    [("nome", "A")] 0 (29 * 86400) rfl

/-! ## Claim C9: cache construction resilience and write-through set -/

/-- Claim C9: constructing the cache over a missing or unparseable backing
file yields the empty cache (both exception paths are caught, so nothing
reaches the caller), and a subsequent `set` records the entry with
`recordedAt = now` and synchronously writes the entire cache snapshot to
the backing file. -/
theorem C9_cache_init_and_set (f : CacheFile)
    (h : f = CacheFile.missing ∨ f = CacheFile.unparseable)
    (id : String) (p : Payload) (now : Int) :
    CNPJCache.load_cache f = [] ∧
    (CNPJCache.set ⟨CNPJCache.load_cache f⟩ now id p).cache.cache = [(id, (p, now))] ∧
    (CNPJCache.set ⟨CNPJCache.load_cache f⟩ now id p).fileWritten = [(id, (p, now))] := by
  rcases h with h | h <;> subst h <;>
    simp [CNPJCache.load_cache, CNPJCache.set, insertA]

/-- Claim C9 witness: the theorem evaluated at a missing backing file. -/
theorem C9_cache_init_and_set_witness :
    CNPJCache.load_cache CacheFile.missing = [] ∧
    (CNPJCache.set ⟨CNPJCache.load_cache CacheFile.missing⟩ 0 "00000000001234"
        [("nome", "A")]).cache.cache = [("00000000001234", ([("nome", "A")], 0))] ∧
    (CNPJCache.set ⟨CNPJCache.load_cache CacheFile.missing⟩ 0 "00000000001234"
        [("nome", "A")]).fileWritten = [("00000000001234", ([("nome", "A")], 0))] :=
  C9_cache_init_and_set CacheFile.missing (Or.inl rfl) "00000000001234" [("nome", "A")] 0

/-! ## Claim C8: identifier canonicalization -/

/-- Claim C8 counterexample: `str.zfill` is not plain left-padding; for a
string starting with a sign character the zeros are inserted after the
sign, so `"-1234"` becomes `"-0000000001234"`, not `"000000000-1234"`. -/
theorem C8_counterexample :
    zfill "-1234" 14 = "-0000000001234" ∧ zfill "-1234" 14 ≠ "000000000-1234" :=
  ⟨rfl, by decide⟩

/-- Claim C8 (amended): canonicalization is Python `zfill` at width 14:
`"1234"` becomes `"00000000001234"`, a string of length at least 14 is
unchanged, a shorter string not starting with `'+'` or `'-'` is plainly
left-padded with its content preserved verbatim, and a shorter string
starting with a sign character keeps the sign first with the zeros
inserted after it. -/
theorem C8_zfill_amended (c : Char) (rest : List Char) (s : String) (hd : s.data = c :: rest) :
    zfill "1234" 14 = "00000000001234" ∧
    (14 ≤ s.length → zfill s 14 = s) ∧
    (s.length < 14 → c ≠ '+' → c ≠ '-' →
      zfill s 14 = ⟨List.replicate (14 - s.length) '0' ++ s.data⟩) ∧
    (s.length < 14 → (c = '+' ∨ c = '-') →
      zfill s 14 = ⟨c :: (List.replicate (14 - s.length) '0' ++ rest)⟩) := by
  have hlen : s.length = s.data.length := rfl
  refine ⟨rfl, ?_, ?_, ?_⟩
  · intro h
    unfold zfill
    rw [if_pos h]
  · intro h1 h2 h3
    unfold zfill
    rw [if_neg (by omega)]
    rw [hd]
    have hsign : ¬(c = '+' ∨ c = '-') := by tauto
    simp only [zfillAux, if_neg hsign]
    rw [hd] at hlen
    simp [← hlen, hd]
  · intro h1 hsign
    unfold zfill
    rw [if_neg (by omega)]
    rw [hd]
    simp only [zfillAux, if_pos hsign]
    rw [hd] at hlen
    simp [← hlen]

/-- Claim C8 witness: the amended theorem evaluated at `"1234"`, a
14-character string, a non-digit string, and a signed string. -/
theorem C8_zfill_amended_witness :
    zfill "1234" 14 = "00000000001234" ∧
    zfill "12345678901234" 14 = "12345678901234" ∧
    zfill "abc" 14 = ⟨List.replicate (14 - "abc".length) '0' ++ "abc".data⟩ ∧
    zfill "-1" 14 = ⟨'-' :: (List.replicate (14 - "-1".length) '0' ++ "1".data)⟩ :=
  ⟨(C8_zfill_amended 'a' "bc".data "abc" rfl).1,
   (C8_zfill_amended '1' "2345678901234".data "12345678901234" rfl).2.1 (by decide),
   (C8_zfill_amended 'a' "bc".data "abc" rfl).2.2.1 (by decide) (by decide) (by decide),
   (C8_zfill_amended '-' "1".data "-1" rfl).2.2.2 (by decide) (Or.inr rfl)⟩

/-! ## Claim C4: cache-then-remote resolution -/

/-- Claim C4 counterexample: the claim says `fetch` is invoked exactly when
`Cache.get` returns absent, but line 61 tests Python truthiness
(`if not data:`): for a fresh cache entry whose payload is the empty
object, `get` returns that payload (not absent) and the fetch is invoked
anyway. -/
theorem C4_counterexample :
    CNPJCache.get ⟨[("00000000001234", ([], 0))]⟩ 0 "00000000001234" = some [] ∧
    (rowStep ["nome"] (fun _ => FetchOutcome.transportError) 0 none [("CNPJ", "1234")]
        ["CNPJ"] ⟨[("00000000001234", ([], 0))]⟩).fetchCalled = true :=
  ⟨rfl, rfl⟩

/-- Claim C4 (amended): per row, the payload is resolved as `Cache.get`;
`fetch_cnpj_data` is invoked exactly when the cached result is falsy
(`None` or an empty payload); a truthy fetched payload is stored via
`Cache.set` with `recordedAt = now`; and when both the cached and the
fetched result are falsy the row, the column list and the cache are left
unchanged (no cache entry is created). -/
theorem C4_resolution_amended (fields : List String) (remote : String → FetchOutcome)
    (now : Int) (last : Option String) (row : Row) (cols : List String) (cache : CNPJCache)
    (cell : String) (hcell : List.lookup "CNPJ" row = some cell) :
    (rowStep fields remote now last row cols cache).fetchCalled
        = !(truthy (cache.get now (zfill cell 14))) ∧
    (truthy (cache.get now (zfill cell 14)) = true →
      (rowStep fields remote now last row cols cache).outCache = cache) ∧
    (truthy (cache.get now (zfill cell 14)) = false →
      truthy (fetch_cnpj_data (remote (zfill cell 14))) = true →
      (rowStep fields remote now last row cols cache).outCache
        = (cache.set now (zfill cell 14)
            ((fetch_cnpj_data (remote (zfill cell 14))).getD [])).cache) ∧
    (truthy (cache.get now (zfill cell 14)) = false →
      truthy (fetch_cnpj_data (remote (zfill cell 14))) = false →
      (rowStep fields remote now last row cols cache).outCache = cache ∧
      (rowStep fields remote now last row cols cache).outRow = row ∧
      (rowStep fields remote now last row cols cache).outCols = cols) := by
  simp only [rowStep, hcell]
  cases hg : truthy (cache.get now (zfill cell 14)) with
  | true =>
    simp [hg, RowStep.fetchCalled, RowStep.outCache]
  | false =>
    cases hf : truthy (fetch_cnpj_data (remote (zfill cell 14))) with
    | true =>
      simp [hg, hf, RowStep.fetchCalled, RowStep.outCache, RowStep.outRow, RowStep.outCols]
    | false =>
      simp [hg, hf, RowStep.fetchCalled, RowStep.outCache, RowStep.outRow, RowStep.outCols]

/-- Claim C4 witness: the amended theorem's fetch-on-falsy-cache clause
evaluated at a concrete row with an empty cache and a failing remote. -/
theorem C4_resolution_amended_witness :
    (rowStep ["nome"] (fun _ => FetchOutcome.transportError) 0 none [("CNPJ", "1234")]
        ["CNPJ"] ⟨[]⟩).fetchCalled
      = !(truthy (CNPJCache.get ⟨[]⟩ 0 (zfill "1234" 14))) :=
  (C4_resolution_amended ["nome"] (fun _ => FetchOutcome.transportError) 0 none
      [("CNPJ", "1234")] ["CNPJ"] ⟨[]⟩ "1234" rfl).1

/-! ## Correctness of the binary64 progress model -/

lemma nbits_zero (f : Nat) : nbits f 0 = 0 := by
  cases f <;> simp [nbits]

lemma nbits_spec : ∀ (fuel n : Nat), 1 ≤ n → n ≤ fuel →
    1 ≤ nbits fuel n ∧ 2 ^ (nbits fuel n - 1) ≤ n ∧ n < 2 ^ nbits fuel n := by
  intro fuel
  induction fuel with
  | zero =>
    intro n h1 h2
    omega
  | succ f ih =>
    intro n h1 h2
    by_cases hn1 : n = 1
    · subst hn1
      simp [nbits, nbits_zero]
    · have hn2 : 2 ≤ n := by omega
      have hrec := ih (n / 2) (by omega) (by omega)
      simp only [nbits, if_neg (by omega : ¬ n = 0)]
      obtain ⟨hL1, hlo, hhi⟩ := hrec
      set L := nbits f (n / 2) with hLdef
      refine ⟨by omega, ?_, ?_⟩
      · have hpow : 2 ^ (L + 1 - 1) = 2 * 2 ^ (L - 1) := by
          have : L + 1 - 1 = (L - 1) + 1 := by omega
          rw [this, pow_succ]
          ring
        rw [hpow]
        omega
      · have hpow : 2 ^ (L + 1) = 2 * 2 ^ L := by
          rw [pow_succ]
          ring
        rw [hpow]
        omega

lemma bitlen_spec (n : Nat) (h : 1 ≤ n) :
    1 ≤ bitlen n ∧ 2 ^ (bitlen n - 1) ≤ n ∧ n < 2 ^ bitlen n :=
  nbits_spec n n h (Nat.le_refl n)

lemma rneInt_bounds (a b : Nat) : a / b ≤ rneInt a b ∧ rneInt a b ≤ a / b + 1 := by
  unfold rneInt
  split_ifs <;> omega

lemma rneInt_mono (a a' b : Nat) (h : a ≤ a') : rneInt a b ≤ rneInt a' b := by
  rcases Nat.lt_or_ge (a / b) (a' / b) with hq | hq
  · have h1 := rneInt_bounds a b
    have h2 := rneInt_bounds a' b
    omega
  · have hq2 : a / b ≤ a' / b := Nat.div_le_div_right h
    have hqe : a / b = a' / b := by omega
    have hr : a % b ≤ a' % b := by
      have e1 : b * (a / b) + a % b = a := Nat.div_add_mod a b
      have e2 : b * (a' / b) + a' % b = a' := Nat.div_add_mod a' b
      rw [← hqe] at e2
      have : b * (a / b) + a % b ≤ b * (a / b) + a' % b := by rw [e1, e2]; exact h
      omega
    unfold rneInt
    simp only [← hqe]
    set q := a / b
    set r := a % b
    set r' := a' % b
    split_ifs <;> omega

lemma rneInt_scale (a b k : Nat) : rneInt (a * 2 ^ k) (b * 2 ^ k) = rneInt a b := by
  have hk : 0 < 2 ^ k := Nat.pos_pow_of_pos k (by omega)
  unfold rneInt
  rw [Nat.mul_div_mul_right _ _ hk, Nat.mul_mod_mul_right]
  have hc1 : (2 * (a % b * 2 ^ k) < b * 2 ^ k) ↔ (2 * (a % b) < b) := by
    rw [← Nat.mul_assoc]
    exact Nat.mul_lt_mul_right hk
  have hc2 : (b * 2 ^ k < 2 * (a % b * 2 ^ k)) ↔ (b < 2 * (a % b)) := by
    rw [← Nat.mul_assoc]
    exact Nat.mul_lt_mul_right hk
  simp only [hc1, hc2]

lemma rneInt_ge_of_le (c a b : Nat) (hb : 0 < b) (h : c * b ≤ a) : c ≤ rneInt a b := by
  have h1 := rneInt_bounds a b
  have : c ≤ a / b := (Nat.le_div_iff_mul_le hb).mpr h
  omega

lemma rneInt_le_of_lt (a b c : Nat) (hb : 0 < b) (h : a < c * b) : rneInt a b ≤ c := by
  have h1 := rneInt_bounds a b
  have : a / b < c := Nat.div_lt_of_lt_mul (by rw [Nat.mul_comm] at h; exact h)
  omega

lemma two_zpow_pos (t : Int) : (0 : ℚ) < 2 ^ t := zpow_pos (by norm_num) t

lemma two_zpow_ne (t : Int) : (2 : ℚ) ^ t ≠ 0 := ne_of_gt (two_zpow_pos t)

lemma two_zpow_add (s t : Int) : (2 : ℚ) ^ (s + t) = 2 ^ s * 2 ^ t :=
  zpow_add₀ (by norm_num) s t

lemma two_zpow_mono {s t : Int} (h : s ≤ t) : (2 : ℚ) ^ s ≤ 2 ^ t :=
  zpow_le_zpow_right₀ (by norm_num) h

lemma two_zpow_natCast (k : Nat) : (2 : ℚ) ^ (k : Int) = ((2 ^ k : Nat) : ℚ) := by
  push_cast
  rw [zpow_natCast]

lemma scaleCmp_iff (c a : Nat) (t : Int) :
    scaleCmp c a t = true ↔ (c : ℚ) ≤ (a : ℚ) * 2 ^ t := by
  unfold scaleCmp
  split_ifs with ht
  · rw [decide_eq_true_eq]
    have h2 : (2 : ℚ) ^ t = ((2 ^ t.toNat : Nat) : ℚ) := by
      rw [← two_zpow_natCast, Int.toNat_of_nonneg ht]
    rw [h2, ← Nat.cast_mul, Nat.cast_le]
  · rw [decide_eq_true_eq]
    push_neg at ht
    have h2 : (2 : ℚ) ^ ((-t).toNat : Int) = 2 ^ (-t) := by
      rw [Int.toNat_of_nonneg (by omega)]
    have key : ((c * 2 ^ (-t).toNat : Nat) : ℚ) ≤ (a : ℚ)
        ↔ (c : ℚ) ≤ (a : ℚ) * 2 ^ t := by
      rw [Nat.cast_mul, ← two_zpow_natCast, h2]
      constructor
      · intro h
        have := mul_le_mul_of_nonneg_right h (le_of_lt (two_zpow_pos t))
        calc (c : ℚ) = (c : ℚ) * (2 ^ (-t) * 2 ^ t) := by
              rw [← two_zpow_add]
              simp
          _ = (c : ℚ) * 2 ^ (-t) * 2 ^ t := by ring
          _ ≤ (a : ℚ) * 2 ^ t := this
      · intro h
        have := mul_le_mul_of_nonneg_right h (le_of_lt (two_zpow_pos (-t)))
        calc (c : ℚ) * 2 ^ (-t) ≤ (a : ℚ) * 2 ^ t * 2 ^ (-t) := this
          _ = (a : ℚ) * (2 ^ t * 2 ^ (-t)) := by ring
          _ = (a : ℚ) := by
              rw [← two_zpow_add]
              simp
    rw [← key, Nat.cast_le]

lemma scaleCmp_ratio (c a b : Nat) (t : Int) (hb : 0 < b) :
    scaleCmp (c * b) a t = true ↔ (c : ℚ) ≤ (a : ℚ) / b * 2 ^ t := by
  rw [scaleCmp_iff]
  have hbq : (0 : ℚ) < b := by exact_mod_cast hb
  rw [Nat.cast_mul]
  constructor
  · intro h
    rw [div_mul_eq_mul_div, le_div_iff hbq]
    exact h
  · intro h
    rw [div_mul_eq_mul_div, le_div_iff hbq] at h
    exact h

lemma scaledPair_snd_pos (a b : Nat) (t : Int) (hb : 0 < b) : 0 < (scaledPair a b t).2 := by
  unfold scaledPair
  split_ifs <;> simp <;> positivity

lemma scaledPair_val (a b : Nat) (t : Int) (hb : 0 < b) :
    ((scaledPair a b t).1 : ℚ) / ((scaledPair a b t).2 : ℚ) = (a : ℚ) / b * 2 ^ t := by
  have hbq : (0 : ℚ) < b := by exact_mod_cast hb
  unfold scaledPair
  split_ifs with ht
  · have h2 : (2 : ℚ) ^ t = ((2 ^ t.toNat : Nat) : ℚ) := by
      rw [← two_zpow_natCast, Int.toNat_of_nonneg ht]
    rw [h2]
    push_cast
    ring
  · push_neg at ht
    push_cast
    have h3 : (2 : ℚ) ^ ((-t).toNat) = 2 ^ (-t) := by
      rw [← zpow_natCast (2 : ℚ) (-t).toNat, Int.toNat_of_nonneg (by omega : (0 : ℤ) ≤ -t)]
    rw [h3, div_mul_eq_mul_div, div_eq_div_iff (by positivity) (by positivity)]
    have hcancel : (2 : ℚ) ^ t * 2 ^ (-t) = 1 := by
      rw [← two_zpow_add]
      simp
    calc (a : ℚ) * (b : ℚ) = (a : ℚ) * (b : ℚ) * ((2 : ℚ) ^ t * 2 ^ (-t)) := by
          rw [hcancel, mul_one]
      _ = (a : ℚ) * 2 ^ t * ((b : ℚ) * 2 ^ (-t)) := by ring

lemma cast_pow_int (k : Nat) : ((2 ^ k : Nat) : ℚ) = (2 : ℚ) ^ (k : Int) := by
  rw [two_zpow_natCast]

lemma pickT_eq (a b : Nat) :
    pickT a b = (if ¬ scaleCmp (2 ^ 52 * b) a (52 + (bitlen b : Int) - (bitlen a : Int))
        then 52 + (bitlen b : Int) - (bitlen a : Int) + 1
      else if scaleCmp (2 ^ 53 * b) a (52 + (bitlen b : Int) - (bitlen a : Int))
        then 52 + (bitlen b : Int) - (bitlen a : Int) - 1
      else 52 + (bitlen b : Int) - (bitlen a : Int)) := rfl

lemma pickT_bracket (a b : Nat) (ha : 1 ≤ a) (hb : 1 ≤ b) :
    (2 : ℚ) ^ (52 : Int) ≤ (a : ℚ) / b * 2 ^ pickT a b ∧
    (a : ℚ) / b * 2 ^ pickT a b < (2 : ℚ) ^ (53 : Int) := by
  obtain ⟨hLa1, hLa2, hLa3⟩ := bitlen_spec a ha
  obtain ⟨hLb1, hLb2, hLb3⟩ := bitlen_spec b hb
  have hbq : (0 : ℚ) < b := by exact_mod_cast hb
  have haq : (0 : ℚ) < a := by exact_mod_cast ha
  rw [pickT_eq]
  set A : Int := (bitlen a : Int) with hAdef
  set B : Int := (bitlen b : Int) with hBdef
  set t0 : Int := 52 + B - A with ht0def
  have hAq1 : (2 : ℚ) ^ (A - 1) ≤ (a : ℚ) := by
    have h0 : ((2 ^ (bitlen a - 1) : Nat) : ℚ) ≤ (a : ℚ) := Nat.cast_le.mpr hLa2
    rw [cast_pow_int] at h0
    have he : ((bitlen a - 1 : Nat) : Int) = A - 1 := by omega
    rwa [he] at h0
  have hAq2 : (a : ℚ) < (2 : ℚ) ^ A := by
    have h0 : (a : ℚ) < ((2 ^ bitlen a : Nat) : ℚ) := Nat.cast_lt.mpr hLa3
    rwa [cast_pow_int] at h0
  have hBq1 : (2 : ℚ) ^ (B - 1) ≤ (b : ℚ) := by
    have h0 : ((2 ^ (bitlen b - 1) : Nat) : ℚ) ≤ (b : ℚ) := Nat.cast_le.mpr hLb2
    rw [cast_pow_int] at h0
    have he : ((bitlen b - 1 : Nat) : Int) = B - 1 := by omega
    rwa [he] at h0
  have hBq2 : (b : ℚ) < (2 : ℚ) ^ B := by
    have h0 : (b : ℚ) < ((2 ^ bitlen b : Nat) : ℚ) := Nat.cast_lt.mpr hLb3
    rwa [cast_pow_int] at h0
  have hs0_hi : (a : ℚ) / b * 2 ^ t0 < (2 : ℚ) ^ (53 : Int) := by
    have hx : (a : ℚ) / b < (2 : ℚ) ^ (A - (B - 1)) := by
      rw [div_lt_iff₀ hbq, zpow_sub₀ (by norm_num : (2 : ℚ) ≠ 0)]
      rw [div_mul_eq_mul_div, lt_div_iff₀ (two_zpow_pos (B - 1))]
      calc (a : ℚ) * 2 ^ (B - 1) ≤ (a : ℚ) * b :=
            mul_le_mul_of_nonneg_left hBq1 (le_of_lt haq)
        _ < 2 ^ A * b := mul_lt_mul_of_pos_right hAq2 hbq
    calc (a : ℚ) / b * 2 ^ t0 < 2 ^ (A - (B - 1)) * 2 ^ t0 :=
          mul_lt_mul_of_pos_right hx (two_zpow_pos t0)
      _ = 2 ^ (A - (B - 1) + t0) := (two_zpow_add _ _).symm
      _ = 2 ^ (53 : Int) := by
          congr 1
          omega
  have hs0_lo : (2 : ℚ) ^ (51 : Int) < (a : ℚ) / b * 2 ^ t0 := by
    have hx : (2 : ℚ) ^ (A - 1 - B) < (a : ℚ) / b := by
      rw [lt_div_iff₀ hbq, zpow_sub₀ (by norm_num : (2 : ℚ) ≠ 0)]
      rw [div_mul_eq_mul_div, div_lt_iff₀ (two_zpow_pos B)]
      calc (2 : ℚ) ^ (A - 1) * b < 2 ^ (A - 1) * 2 ^ B :=
            mul_lt_mul_of_pos_left hBq2 (two_zpow_pos (A - 1))
        _ ≤ (a : ℚ) * 2 ^ B :=
            mul_le_mul_of_nonneg_right hAq1 (le_of_lt (two_zpow_pos B))
    calc (2 : ℚ) ^ (51 : Int) = 2 ^ (A - 1 - B + t0) := by
          congr 1
          omega
      _ = 2 ^ (A - 1 - B) * 2 ^ t0 := two_zpow_add _ _
      _ < (a : ℚ) / b * 2 ^ t0 := mul_lt_mul_of_pos_right hx (two_zpow_pos t0)
  have hcast52 : ((2 ^ 52 : Nat) : ℚ) = (2 : ℚ) ^ (52 : Int) := cast_pow_int 52
  have hcast53 : ((2 ^ 53 : Nat) : ℚ) = (2 : ℚ) ^ (53 : Int) := cast_pow_int 53
  cases hc1 : scaleCmp (2 ^ 52 * b) a t0 with
  | true =>
    have hs52 : (2 : ℚ) ^ (52 : Int) ≤ (a : ℚ) / b * 2 ^ t0 := by
      have h0 := (scaleCmp_ratio (2 ^ 52) a b t0 hb).mp hc1
      rwa [hcast52] at h0
    have hc2 : scaleCmp (2 ^ 53 * b) a t0 = false := by
      cases hc2 : scaleCmp (2 ^ 53 * b) a t0 with
      | false => rfl
      | true =>
        have h0 := (scaleCmp_ratio (2 ^ 53) a b t0 hb).mp hc2
        rw [hcast53] at h0
        exact absurd hs0_hi (not_lt.mpr h0)
    rw [hc2]
    simpa using ⟨hs52, hs0_hi⟩
  | false =>
    simp only [Bool.false_eq_true, not_false_eq_true, if_true]
    have hs52 : (a : ℚ) / b * 2 ^ t0 < (2 : ℚ) ^ (52 : Int) := by
      have hneg : ¬ (((2 ^ 52 : Nat) : ℚ) ≤ (a : ℚ) / b * 2 ^ t0) := by
        intro hcon
        have := (scaleCmp_ratio (2 ^ 52) a b t0 hb).mpr hcon
        rw [hc1] at this
        exact Bool.noConfusion this
      rw [hcast52] at hneg
      exact not_le.mp hneg
    have hexp : (2 : ℚ) ^ (t0 + 1) = 2 ^ t0 * 2 := by
      rw [two_zpow_add t0 1, zpow_one]
    constructor
    · rw [hexp]
      have h2 : (2 : ℚ) ^ (52 : Int) = 2 ^ (51 : Int) * 2 := by
        rw [show (52 : Int) = 51 + 1 by norm_num, two_zpow_add, zpow_one]
      rw [h2, ← mul_assoc]
      have := mul_lt_mul_of_pos_right hs0_lo (by norm_num : (0 : ℚ) < 2)
      linarith
    · rw [hexp, ← mul_assoc]
      have h2 : (2 : ℚ) ^ (53 : Int) = 2 ^ (52 : Int) * 2 := by
        rw [show (53 : Int) = 52 + 1 by norm_num, two_zpow_add, zpow_one]
      rw [h2]
      exact mul_lt_mul_of_pos_right hs52 (by norm_num)

lemma zpow_cast_eq (k : Nat) (ki : Int) (h : (k : Int) = ki) :
    ((2 ^ k : Nat) : ℚ) = (2 : ℚ) ^ ki := by
  rw [cast_pow_int, h]

lemma bracket_nat (a b : Nat) (t : Int) (hb : 0 < b)
    (h1 : (2 : ℚ) ^ (52 : Int) ≤ (a : ℚ) / b * 2 ^ t)
    (h2 : (a : ℚ) / b * 2 ^ t < (2 : ℚ) ^ (53 : Int)) :
    2 ^ 52 * (scaledPair a b t).2 ≤ (scaledPair a b t).1 ∧
    (scaledPair a b t).1 < 2 ^ 53 * (scaledPair a b t).2 := by
  have hB := scaledPair_snd_pos a b t hb
  have hBq : (0 : ℚ) < ((scaledPair a b t).2 : ℚ) := by exact_mod_cast hB
  have hv := scaledPair_val a b t hb
  rw [← hv] at h1 h2
  rw [le_div_iff₀ hBq] at h1
  rw [div_lt_iff₀ hBq] at h2
  constructor
  · have hq : ((2 ^ 52 * (scaledPair a b t).2 : Nat) : ℚ)
        ≤ ((scaledPair a b t).1 : ℚ) := by
      rw [Nat.cast_mul, zpow_cast_eq 52 52 (by norm_num)]
      exact h1
    exact_mod_cast hq
  · have hq : (((scaledPair a b t).1 : Nat) : ℚ)
        < ((2 ^ 53 * (scaledPair a b t).2 : Nat) : ℚ) := by
      rw [Nat.cast_mul, zpow_cast_eq 53 53 (by norm_num)]
      exact h2
    exact_mod_cast hq

lemma fpOfRatio_eq (a b : Nat) :
    fpOfRatio a b
      = (if rneInt (scaledPair a b (pickT a b)).1 (scaledPair a b (pickT a b)).2 = 2 ^ 53
          then ((2 ^ 52 : Nat), 1 - pickT a b)
          else (rneInt (scaledPair a b (pickT a b)).1 (scaledPair a b (pickT a b)).2,
            -(pickT a b))) := rfl

lemma fpOfRatio_val (a b : Nat) :
    fpVal (fpOfRatio a b)
      = (rneInt (scaledPair a b (pickT a b)).1 (scaledPair a b (pickT a b)).2 : ℚ)
          * 2 ^ (-(pickT a b)) := by
  rw [fpOfRatio_eq]
  split_ifs with h
  · rw [h]
    unfold fpVal
    simp only
    rw [zpow_cast_eq 52 52 (by norm_num), zpow_cast_eq 53 53 (by norm_num)]
    rw [← two_zpow_add, ← two_zpow_add]
    congr 1
    omega
  · rfl

lemma fpOfRatio_norm (a b : Nat) (ha : 1 ≤ a) (hb : 1 ≤ b) :
    2 ^ 52 ≤ (fpOfRatio a b).1 ∧ (fpOfRatio a b).1 < 2 ^ 53 := by
  obtain ⟨h1, h2⟩ := pickT_bracket a b ha hb
  obtain ⟨hn1, hn2⟩ := bracket_nat a b (pickT a b) (by omega) h1 h2
  have hBpos := scaledPair_snd_pos a b (pickT a b) (by omega)
  have hm1 : 2 ^ 52 ≤ rneInt (scaledPair a b (pickT a b)).1 (scaledPair a b (pickT a b)).2 :=
    rneInt_ge_of_le _ _ _ hBpos hn1
  have hm2 : rneInt (scaledPair a b (pickT a b)).1 (scaledPair a b (pickT a b)).2 ≤ 2 ^ 53 :=
    rneInt_le_of_lt _ _ _ hBpos hn2
  rw [fpOfRatio_eq]
  split_ifs with h
  · exact ⟨Nat.le_refl _, by norm_num⟩
  · exact ⟨hm1, by omega⟩

lemma fpOfRatio_t_le (a a2 b : Nat) (ha : 1 ≤ a) (haa : a ≤ a2) (hb : 1 ≤ b) :
    pickT a2 b ≤ pickT a b := by
  by_contra hcon
  push_neg at hcon
  obtain ⟨h1, h2⟩ := pickT_bracket a b ha hb
  obtain ⟨h1s, h2s⟩ := pickT_bracket a2 b (by omega) hb
  have hbq : (0 : ℚ) < b := by exact_mod_cast hb
  have hxx : (a : ℚ) / b ≤ (a2 : ℚ) / b := by
    gcongr

  have hkey : (2 : ℚ) ^ (53 : Int) ≤ (a2 : ℚ) / b * 2 ^ pickT a2 b := by
    have e1 : (2 : ℚ) ^ pickT a2 b = 2 ^ pickT a b * 2 ^ (pickT a2 b - pickT a b) := by
      rw [← two_zpow_add]
      congr 1
      omega
    have e2 : (2 : ℚ) ^ (1 : Int) ≤ 2 ^ (pickT a2 b - pickT a b) := two_zpow_mono (by omega)
    calc (2 : ℚ) ^ (53 : Int) = 2 ^ (52 : Int) * 2 ^ (1 : Int) := by
          rw [← two_zpow_add]
          congr 1
      _ ≤ ((a : ℚ) / b * 2 ^ pickT a b) * 2 ^ (pickT a2 b - pickT a b) := by
          apply mul_le_mul h1 e2 (le_of_lt (two_zpow_pos 1))
          positivity
      _ = (a : ℚ) / b * 2 ^ pickT a2 b := by
          rw [e1]
          ring
      _ ≤ (a2 : ℚ) / b * 2 ^ pickT a2 b :=
          mul_le_mul_of_nonneg_right hxx (le_of_lt (two_zpow_pos _))
  exact absurd h2s (not_lt.mpr hkey)

lemma fpOfRatio_mono (a a2 b : Nat) (ha : 1 ≤ a) (haa : a ≤ a2) (hb : 1 ≤ b) :
    fpVal (fpOfRatio a b) ≤ fpVal (fpOfRatio a2 b) := by
  have hb0 : (0 : Nat) < b := by omega
  obtain ⟨h1, h2⟩ := pickT_bracket a b ha hb
  obtain ⟨h1s, h2s⟩ := pickT_bracket a2 b (by omega) hb
  obtain ⟨hn1, hn2⟩ := bracket_nat a b _ hb0 h1 h2
  obtain ⟨hn1s, hn2s⟩ := bracket_nat a2 b _ hb0 h1s h2s
  have hBpos := scaledPair_snd_pos a b (pickT a b) hb0
  have hBposs := scaledPair_snd_pos a2 b (pickT a2 b) hb0
  have htle := fpOfRatio_t_le a a2 b ha haa hb
  rw [fpOfRatio_val, fpOfRatio_val]
  set m := rneInt (scaledPair a b (pickT a b)).1 (scaledPair a b (pickT a b)).2 with hmdef
  set ms := rneInt (scaledPair a2 b (pickT a2 b)).1 (scaledPair a2 b (pickT a2 b)).2 with hmsdef
  rcases eq_or_lt_of_le htle with hteq | htlt
  · rw [hteq] at hmsdef ⊢
    have hcmp : m ≤ ms := by
      rw [hmdef, hmsdef]
      unfold scaledPair
      split_ifs with ht
      · exact rneInt_mono _ _ _ (Nat.mul_le_mul_right _ haa)
      · exact rneInt_mono _ _ _ haa
    exact mul_le_mul_of_nonneg_right (by exact_mod_cast hcmp) (le_of_lt (two_zpow_pos _))
  · have hmle : m ≤ 2 ^ 53 := rneInt_le_of_lt _ _ _ hBpos hn2
    have hmge : 2 ^ 52 ≤ ms := rneInt_ge_of_le _ _ _ hBposs hn1s
    calc (m : ℚ) * 2 ^ (-(pickT a b))
        ≤ (2 : ℚ) ^ (53 : Int) * 2 ^ (-(pickT a b)) := by
          apply mul_le_mul_of_nonneg_right ?_ (le_of_lt (two_zpow_pos _))
          rw [← zpow_cast_eq 53 53 (by norm_num)]
          exact_mod_cast hmle
      _ = 2 ^ (53 - pickT a b) := by
          rw [← two_zpow_add]
          congr 1
      _ ≤ 2 ^ (52 - pickT a2 b) := two_zpow_mono (by omega)
      _ = (2 : ℚ) ^ (52 : Int) * 2 ^ (-(pickT a2 b)) := by
          rw [← two_zpow_add]
          congr 1
      _ ≤ (ms : ℚ) * 2 ^ (-(pickT a2 b)) := by
          apply mul_le_mul_of_nonneg_right ?_ (le_of_lt (two_zpow_pos _))
          rw [← zpow_cast_eq 52 52 (by norm_num)]
          exact_mod_cast hmge

lemma fpMul100_eq (p : Nat × Int) :
    fpMul100 p
      = (if rneInt (p.1 * 100) (2 ^ (bitlen (p.1 * 100) - 53)) = 2 ^ 53
          then ((2 ^ 52 : Nat), p.2 + (bitlen (p.1 * 100) - 53 : Nat) + 1)
          else (rneInt (p.1 * 100) (2 ^ (bitlen (p.1 * 100) - 53)),
            p.2 + (bitlen (p.1 * 100) - 53 : Nat))) := rfl

lemma fpMul100_bracket (m : Nat) (hm1 : 2 ^ 52 ≤ m) :
    53 ≤ bitlen (m * 100) ∧
    2 ^ 52 * 2 ^ (bitlen (m * 100) - 53) ≤ m * 100 ∧
    m * 100 < 2 ^ 53 * 2 ^ (bitlen (m * 100) - 53) := by
  have hM1 : 1 ≤ m * 100 := by
    have : (1 : Nat) ≤ 2 ^ 52 := by norm_num
    nlinarith
  obtain ⟨hL1, hL2, hL3⟩ := bitlen_spec (m * 100) hM1
  have h58 : 2 ^ 58 ≤ m * 100 := by
    have h0 : (2 : Nat) ^ 58 ≤ 2 ^ 52 * 100 := by norm_num
    have h1 : 2 ^ 52 * 100 ≤ m * 100 := Nat.mul_le_mul_right 100 hm1
    omega
  have hL53 : 59 ≤ bitlen (m * 100) := by
    by_contra hcon
    push_neg at hcon
    have hle : (2 : Nat) ^ bitlen (m * 100) ≤ 2 ^ 58 :=
      Nat.pow_le_pow_right (by omega) (by omega)
    omega
  refine ⟨by omega, ?_, ?_⟩
  · have he : 52 + (bitlen (m * 100) - 53) = bitlen (m * 100) - 1 := by omega
    rw [← pow_add, he]
    exact hL2
  · have he : 53 + (bitlen (m * 100) - 53) = bitlen (m * 100) := by omega
    rw [← pow_add, he]
    exact hL3

lemma fpMul100_val (p : Nat × Int) :
    fpVal (fpMul100 p)
      = (rneInt (p.1 * 100) (2 ^ (bitlen (p.1 * 100) - 53)) : ℚ)
          * 2 ^ (p.2 + (bitlen (p.1 * 100) - 53 : Nat)) := by
  rw [fpMul100_eq]
  split_ifs with h
  · rw [h]
    unfold fpVal
    simp only
    rw [zpow_cast_eq 52 52 (by norm_num), zpow_cast_eq 53 53 (by norm_num)]
    rw [← two_zpow_add, ← two_zpow_add]
    congr 1
    omega
  · rfl

lemma fpMul100_mono (p q : Nat × Int)
    (hp1 : 2 ^ 52 ≤ p.1) (hq1 : 2 ^ 52 ≤ q.1)
    (h : fpVal p ≤ fpVal q) :
    fpVal (fpMul100 p) ≤ fpVal (fpMul100 q) := by
  obtain ⟨hpL, hpb1, hpb2⟩ := fpMul100_bracket p.1 hp1
  obtain ⟨hqL, hqb1, hqb2⟩ := fpMul100_bracket q.1 hq1
  rw [fpMul100_val, fpMul100_val]
  set M := p.1 * 100 with hMdef
  set Mq := q.1 * 100 with hMqdef
  set sh := bitlen M - 53 with hshdef
  set shq := bitlen Mq - 53 with hshqdef
  set E := p.2 + (sh : Int) with hEdef
  set E2 := q.2 + (shq : Int) with hE2def
  have h100 : (M : ℚ) * 2 ^ p.2 ≤ (Mq : ℚ) * 2 ^ q.2 := by
    rw [hMdef, hMqdef]
    push_cast
    unfold fpVal at h
    nlinarith [two_zpow_pos p.2, two_zpow_pos q.2,
      mul_le_mul_of_nonneg_right h (by norm_num : (0 : ℚ) ≤ 100)]
  have hEle : E ≤ E2 := by
    by_contra hcon
    push_neg at hcon
    have hlt : (Mq : ℚ) * 2 ^ q.2 < (2 : ℚ) ^ (53 + E2) := by
      calc (Mq : ℚ) * 2 ^ q.2 < ((2 ^ (53 + shq) : Nat) : ℚ) * 2 ^ q.2 := by
            apply mul_lt_mul_of_pos_right ?_ (two_zpow_pos _)
            exact_mod_cast (show Mq < 2 ^ (53 + shq) by rw [pow_add]; exact hqb2)
        _ = (2 : ℚ) ^ ((53 + shq : Nat) : Int) * 2 ^ q.2 := by rw [cast_pow_int]
        _ = (2 : ℚ) ^ (53 + E2) := by
            rw [← two_zpow_add]
            congr 1
            push_cast
            omega
    have hge : (2 : ℚ) ^ (52 + E) ≤ (M : ℚ) * 2 ^ p.2 := by
      calc (2 : ℚ) ^ (52 + E) = (2 : ℚ) ^ ((52 + sh : Nat) : Int) * 2 ^ p.2 := by
            rw [← two_zpow_add]
            congr 1
            push_cast
            omega
        _ = ((2 ^ (52 + sh) : Nat) : ℚ) * 2 ^ p.2 := by rw [cast_pow_int]
        _ ≤ (M : ℚ) * 2 ^ p.2 := by
            apply mul_le_mul_of_nonneg_right ?_ (le_of_lt (two_zpow_pos _))
            exact_mod_cast (show 2 ^ (52 + sh) ≤ M by rw [pow_add]; exact hpb1)
    have hcmp : (Mq : ℚ) * 2 ^ q.2 < (M : ℚ) * 2 ^ p.2 :=
      lt_of_lt_of_le hlt (le_trans (two_zpow_mono (by omega)) hge)
    exact absurd h100 (not_le.mpr hcmp)
  rcases eq_or_lt_of_le hEle with hEeq | hElt
  · have hnat : M * 2 ^ shq ≤ Mq * 2 ^ sh := by
      have hmul := mul_le_mul_of_nonneg_right h100
        (le_of_lt (two_zpow_pos ((shq : Int) - p.2)))
      have hL : (M : ℚ) * 2 ^ p.2 * 2 ^ ((shq : Int) - p.2)
          = (M : ℚ) * 2 ^ ((shq : Nat) : Int) := by
        rw [mul_assoc, ← two_zpow_add]
        congr 2
        omega
      have hR : (Mq : ℚ) * 2 ^ q.2 * 2 ^ ((shq : Int) - p.2)
          = (Mq : ℚ) * 2 ^ ((sh : Nat) : Int) := by
        rw [mul_assoc, ← two_zpow_add]
        congr 2
        omega
      rw [hL, hR] at hmul
      rw [zpow_natCast (2 : ℚ) shq, zpow_natCast (2 : ℚ) sh] at hmul
      exact_mod_cast hmul
    have hr : rneInt M (2 ^ sh) ≤ rneInt Mq (2 ^ shq) := by
      have e1 : rneInt M (2 ^ sh) = rneInt (M * 2 ^ shq) (2 ^ sh * 2 ^ shq) :=
        (rneInt_scale M (2 ^ sh) shq).symm
      have e2 : rneInt Mq (2 ^ shq) = rneInt (Mq * 2 ^ sh) (2 ^ shq * 2 ^ sh) :=
        (rneInt_scale Mq (2 ^ shq) sh).symm
      rw [e1, e2, Nat.mul_comm (2 ^ shq) (2 ^ sh)]
      exact rneInt_mono _ _ _ hnat
    rw [← hEeq]
    exact mul_le_mul_of_nonneg_right (by exact_mod_cast hr) (le_of_lt (two_zpow_pos _))
  · have hm_le : rneInt M (2 ^ sh) ≤ 2 ^ 53 :=
      rneInt_le_of_lt _ _ _ (Nat.pos_pow_of_pos sh (by omega)) hpb2
    have hm_ge : 2 ^ 52 ≤ rneInt Mq (2 ^ shq) :=
      rneInt_ge_of_le _ _ _ (Nat.pos_pow_of_pos shq (by omega)) hqb1
    calc (rneInt M (2 ^ sh) : ℚ) * 2 ^ E ≤ (2 : ℚ) ^ (53 : Int) * 2 ^ E := by
          apply mul_le_mul_of_nonneg_right ?_ (le_of_lt (two_zpow_pos _))
          rw [← zpow_cast_eq 53 53 (by norm_num)]
          exact_mod_cast hm_le
      _ = 2 ^ (53 + E) := (two_zpow_add _ _).symm
      _ ≤ 2 ^ (52 + E2) := two_zpow_mono (by omega)
      _ = (2 : ℚ) ^ (52 : Int) * 2 ^ E2 := two_zpow_add _ _
      _ ≤ (rneInt Mq (2 ^ shq) : ℚ) * 2 ^ E2 := by
          apply mul_le_mul_of_nonneg_right ?_ (le_of_lt (two_zpow_pos _))
          rw [← zpow_cast_eq 52 52 (by norm_num)]
          exact_mod_cast hm_ge

lemma floor_nat_div (a b : Nat) : ⌊(a : ℚ) / b⌋ = (a / b : Nat) := by
  rcases Nat.eq_zero_or_pos b with hb | hb
  · subst hb
    norm_num
  · have h0 : ⌊((a : Int) : ℚ) / ((b : Nat) : ℚ)⌋ = (a : Int) / (b : Nat) :=
      Rat.floor_intCast_div_natCast a b
    have h1 : ((a : Int) : ℚ) = (a : ℚ) := by push_cast; rfl
    rw [h1] at h0
    rw [h0]
    exact (Int.natCast_div a b).symm

lemma truncToNat_eq_floor (p : Nat × Int) : (truncToNat p : Int) = ⌊fpVal p⌋ := by
  unfold truncToNat fpVal
  split_ifs with he
  · have hv : (p.1 : ℚ) * 2 ^ p.2 = ((p.1 * 2 ^ p.2.toNat : Nat) : ℚ) := by
      push_cast
      rw [← zpow_natCast (2 : ℚ) p.2.toNat, Int.toNat_of_nonneg he]
    rw [hv, Int.floor_natCast]
  · push_neg at he
    have hv : (p.1 : ℚ) * 2 ^ p.2 = (p.1 : ℚ) / ((2 ^ (-p.2).toNat : Nat) : ℚ) := by
      push_cast
      rw [← zpow_natCast (2 : ℚ) (-p.2).toNat, Int.toNat_of_nonneg (by omega : (0 : Int) ≤ -p.2)]
      rw [div_eq_mul_inv, ← zpow_neg]
      congr 1
      congr 1
      omega
    rw [hv]
    have := floor_nat_div p.1 (2 ^ (-p.2).toNat)
    push_cast at this ⊢
    rw [this]
  
lemma truncToNat_mono (p q : Nat × Int) (h : fpVal p ≤ fpVal q) :
    truncToNat p ≤ truncToNat q := by
  have h1 := truncToNat_eq_floor p
  have h2 := truncToNat_eq_floor q
  have h3 : ⌊fpVal p⌋ ≤ ⌊fpVal q⌋ := Int.floor_le_floor h
  omega

lemma pyProgress_mono (n : Nat) {i j : Nat} (hij : i ≤ j) :
    pyProgress n i ≤ pyProgress n j := by
  unfold pyProgress
  split_ifs with hn
  · exact Nat.le_refl 0
  · have hn1 : 1 ≤ n := by omega
    have h1 := fpOfRatio_mono (i + 1) (j + 1) n (by omega) (by omega) hn1
    have hnp := fpOfRatio_norm (i + 1) n (by omega) hn1
    have hnq := fpOfRatio_norm (j + 1) n (by omega) hn1
    exact truncToNat_mono _ _ (fpMul100_mono _ _ hnp.1 hnq.1 h1)

lemma pyProgress_last (n : Nat) (h : n ≠ 0) : pyProgress n (n - 1) = 100 := by
  have hn : n - 1 + 1 = n := by omega
  unfold pyProgress
  rw [if_neg h, hn]
  have ht : pickT n n = 52 := by
    rw [pickT_eq]
    have e0 : (52 : Int) + (bitlen n : Int) - (bitlen n : Int) = 52 := by omega
    rw [e0]
    have hc1 : scaleCmp (2 ^ 52 * n) n 52 = true := by
      unfold scaleCmp
      rw [if_pos (by norm_num : (0 : Int) ≤ 52)]
      rw [decide_eq_true_eq]
      show 2 ^ 52 * n ≤ n * 2 ^ 52
      rw [Nat.mul_comm]
    have hc2 : scaleCmp (2 ^ 53 * n) n 52 = false := by
      unfold scaleCmp
      rw [if_pos (by norm_num : (0 : Int) ≤ 52)]
      rw [decide_eq_false_iff_not]
      show ¬ 2 ^ 53 * n ≤ n * 2 ^ 52
      intro hcon
      rw [Nat.mul_comm n (2 ^ 52)] at hcon
      have hcon2 : (2 : Nat) ^ 53 ≤ 2 ^ 52 :=
        Nat.le_of_mul_le_mul_right hcon (by omega)
      norm_num at hcon2
    rw [hc1, hc2]
    simp
  have hfp : fpOfRatio n n = (2 ^ 52, -52) := by
    rw [fpOfRatio_eq, ht]
    have hsp : scaledPair n n (52 : Int) = (n * 2 ^ 52, n) := by
      unfold scaledPair
      rw [if_pos (by norm_num : (0 : Int) ≤ 52)]
      rfl
    rw [hsp]
    have hrne : rneInt (n * 2 ^ 52) n = 2 ^ 52 := by
      unfold rneInt
      have hmod : n * 2 ^ 52 % n = 0 := Nat.mul_mod_right n (2 ^ 52)
      have hdiv : n * 2 ^ 52 / n = 2 ^ 52 :=
        Nat.mul_div_cancel_left (2 ^ 52) (by omega)
      rw [hmod, hdiv]
      rw [if_pos (by omega : 2 * 0 < n)]
    rw [hrne]
    rw [if_neg (by norm_num : ¬ (2 : Nat) ^ 52 = 2 ^ 53)]
  rw [hfp]
  rfl

/-! ## Loop machinery for the run-level claims -/

lemma runLoop_nil (fields : List String) (remote : String → FetchOutcome) (now : Int)
    (n : Nat) (i : Nat) (acc : List Row) (cols : List String) (cache : CNPJCache)
    (last : Option String) (ps : List Nat) :
    runLoop fields remote now n [] i acc cols cache last ps = .done acc cols cache ps := rfl

lemma runLoop_cons (fields : List String) (remote : String → FetchOutcome) (now : Int)
    (n : Nat) (r : Row) (rs : List Row) (i : Nat) (acc : List Row) (cols : List String)
    (cache : CNPJCache) (last : Option String) (ps : List Nat) :
    runLoop fields remote now n (r :: rs) i acc cols cache last ps
      = match rowStep fields remote now last r cols cache with
        | .abortRun => .aborted ps
        | .ok r2 cols2 cache2 cnpj _ =>
          runLoop fields remote now n rs (i + 1) (acc ++ [r2]) cols2 cache2 (some cnpj)
            (ps ++ [pyProgress n i]) := rfl

/-- The progress percentages a loop run emits: a prefix of the rows is
processed (all of them when the loop finishes) and row `i + j` contributes
`pyProgress n (i + j)`. -/
lemma runLoop_ps_spec (fields : List String) (remote : String → FetchOutcome) (now : Int)
    (n : Nat) :
    ∀ (rs : List Row) (i : Nat) (acc : List Row) (cols : List String) (cache : CNPJCache)
      (last : Option String) (ps : List Nat),
      ∃ k, k ≤ rs.length ∧
        (runLoop fields remote now n rs i acc cols cache last ps).ps
          = ps ++ (List.range k).map (fun j => pyProgress n (i + j)) ∧
        ((runLoop fields remote now n rs i acc cols cache last ps).isDone = true →
          k = rs.length) := by
  intro rs
  induction rs with
  | nil =>
    intro i acc cols cache last ps
    refine ⟨0, Nat.le_refl 0, ?_, fun _ => rfl⟩
    rw [runLoop_nil]
    simp [LoopResult.ps]
  | cons r rest ih =>
    intro i acc cols cache last ps
    cases hstep : rowStep fields remote now last r cols cache with
    | abortRun =>
      refine ⟨0, Nat.zero_le _, ?_, ?_⟩
      · rw [runLoop_cons]
        simp only [hstep]
        simp [LoopResult.ps]
      · rw [runLoop_cons]
        simp only [hstep]
        intro hD
        exact absurd hD (by simp [LoopResult.isDone])
    | ok r2 cols2 cache2 cnpj fc =>
      obtain ⟨k, hk, hps, hdone⟩ :=
        ih (i + 1) (acc ++ [r2]) cols2 cache2 (some cnpj) (ps ++ [pyProgress n i])
      have hunf : runLoop fields remote now n (r :: rest) i acc cols cache last ps
          = runLoop fields remote now n rest (i + 1) (acc ++ [r2]) cols2 cache2 (some cnpj)
              (ps ++ [pyProgress n i]) := by
        rw [runLoop_cons]
        simp only [hstep]
      refine ⟨k + 1, Nat.succ_le_succ hk, ?_, ?_⟩
      · rw [hunf, hps]
        rw [List.range_succ_eq_map, List.map_cons, List.map_map]
        have harg : ((List.range k).map ((fun j => pyProgress n (i + j)) ∘ Nat.succ))
            = (List.range k).map (fun j => pyProgress n (i + 1 + j)) := by
          refine List.map_congr_left ?_
          intro j _
          show pyProgress n (i + (j + 1)) = pyProgress n (i + 1 + j)
          have hj : i + (j + 1) = i + 1 + j := by omega
          rw [hj]
        rw [harg]
        simp [List.append_assoc]
      · rw [hunf]
        intro hD
        rw [hdone hD]
        rfl

lemma progress_chain (nv k : Nat) :
    List.Chain' (· ≤ ·) ((List.range k).map (fun j => pyProgress nv j)) := by
  apply List.Pairwise.chain'
  rw [List.pairwise_map]
  refine List.Pairwise.imp ?_ (List.pairwise_lt_range k)
  intro a b hab
  exact pyProgress_mono nv (by omega)

lemma progress_last (nv : Nat) (h : nv ≠ 0) :
    ((List.range nv).map (fun j => pyProgress nv j)).getLast? = some 100 := by
  obtain ⟨m, rfl⟩ : ∃ m, nv = m + 1 := ⟨nv - 1, by omega⟩
  rw [List.range_succ, List.map_append]
  simp only [List.map_cons, List.map_nil, List.getLast?_concat]
  have h0 := pyProgress_last (m + 1) (by omega)
  rw [Nat.add_sub_cancel] at h0
  rw [h0]

lemma finished_not_mem_progress (l : List Nat) : Event.finished ∉ l.map Event.progress := by
  intro h
  rcases List.mem_map.mp h with ⟨a, _, ha⟩
  exact Event.noConfusion ha

lemma error_not_mem_progress (l : List Nat) : Event.error ∉ l.map Event.progress := by
  intro h
  rcases List.mem_map.mp h with ⟨a, _, ha⟩
  exact Event.noConfusion ha

lemma no_dual_terminal (l : List Nat) (t : Event) (h : t = Event.finished ∨ t = Event.error) :
    ¬(Event.finished ∈ l.map Event.progress ++ [t] ∧
      Event.error ∈ l.map Event.progress ++ [t]) := by
  rintro ⟨h1, h2⟩
  rcases h with rfl | rfl
  · rcases List.mem_append.mp h2 with h2 | h2
    · exact error_not_mem_progress l h2
    · simp at h2
  · rcases List.mem_append.mp h1 with h1 | h1
    · exact finished_not_mem_progress l h1
    · simp at h1

/-! ## Claim C6: progress and terminal signal protocol -/

/-- Claim C6 (amended): every run emits a (possibly empty) progress
sequence followed by exactly one terminal signal; the k-th progress value
is `pyProgress totalRows k`, the binary64 evaluation of
`int((index + 1) / total_rows * 100)` — which can differ by one from the
exact rational floor `(k + 1) * 100 / totalRows`, see `C6_counterexample` —
the sequence is non-decreasing, a run never emits both a completion and a
failure signal, and a completed run has processed every row, its last
progress value being 100 whenever at least one row exists. -/
theorem C6_signal_protocol (inp : RunInput) :
    ∃ (k : Nat) (t : Event),
      k ≤ totalRows inp ∧
      (t = Event.finished ∨ t = Event.error) ∧
      (CNPJProcessor.run inp).events
        = ((List.range k).map (fun j => pyProgress (totalRows inp) j)).map Event.progress
            ++ [t] ∧
      List.Chain' (· ≤ ·) ((List.range k).map (fun j => pyProgress (totalRows inp) j)) ∧
      ¬(Event.finished ∈ (CNPJProcessor.run inp).events ∧
        Event.error ∈ (CNPJProcessor.run inp).events) ∧
      (t = Event.finished → k = totalRows inp ∧ (totalRows inp ≠ 0 →
        ((List.range k).map (fun j => pyProgress (totalRows inp) j)).getLast?
          = some 100)) := by
  cases hl : inp.loadResult with
  | none =>
    refine ⟨0, Event.error, Nat.zero_le _, Or.inr rfl, ?_, by simp, ?_, ?_⟩
    · simp [CNPJProcessor.run, hl]
    · simp [CNPJProcessor.run, hl]
    · intro ht
      exact absurd ht (by simp)
  | some df =>
    have htot : totalRows inp = df.rows.length := by simp [totalRows, hl]
    obtain ⟨k, hk, hps, hdone⟩ := runLoop_ps_spec inp.fields inp.remote inp.now
      df.rows.length df.rows 0 [] df.columns ⟨CNPJCache.load_cache inp.cacheFile⟩ none []
    have hzero : ((List.range k).map (fun j => pyProgress df.rows.length (0 + j)))
        = (List.range k).map (fun j => pyProgress df.rows.length j) := by
      refine List.map_congr_left ?_
      intro j _
      have hj : 0 + j = j := by omega
      rw [hj]
    rw [hzero] at hps
    simp only [List.nil_append] at hps
    cases hr : runLoop inp.fields inp.remote inp.now df.rows.length df.rows 0 [] df.columns
        ⟨CNPJCache.load_cache inp.cacheFile⟩ none [] with
    | aborted ps2 =>
      rw [hr] at hps hdone
      simp only [LoopResult.ps] at hps
      have hev : (CNPJProcessor.run inp).events = ps2.map Event.progress ++ [Event.error] := by
        simp [CNPJProcessor.run, hl, hr]
      refine ⟨k, Event.error, htot ▸ hk, Or.inr rfl, ?_, ?_, ?_, ?_⟩
      · rw [hev, hps, htot]
      · rw [htot]
        exact progress_chain df.rows.length k
      · rw [hev, hps]
        exact no_dual_terminal _ Event.error (Or.inr rfl)
      · intro ht
        exact absurd ht (by simp)
    | done rows2 cols2 cache2 ps2 =>
      rw [hr] at hps hdone
      simp only [LoopResult.ps] at hps
      have hkN : k = df.rows.length := hdone rfl
      cases hw : inp.writeOk with
      | true =>
        have hev : (CNPJProcessor.run inp).events
            = ps2.map Event.progress ++ [Event.finished] := by
          simp [CNPJProcessor.run, hl, hr, hw]
        refine ⟨k, Event.finished, htot ▸ hk, Or.inl rfl, ?_, ?_, ?_, ?_⟩
        · rw [hev, hps, htot]
        · rw [htot]
          exact progress_chain df.rows.length k
        · rw [hev, hps]
          exact no_dual_terminal _ Event.finished (Or.inl rfl)
        · intro _
          constructor
          · rw [htot, hkN]
          · intro hne
            rw [htot] at hne ⊢
            rw [hkN]
            exact progress_last df.rows.length hne
      | false =>
        have hev : (CNPJProcessor.run inp).events
            = ps2.map Event.progress ++ [Event.error] := by
          simp [CNPJProcessor.run, hl, hr, hw]
        refine ⟨k, Event.error, htot ▸ hk, Or.inr rfl, ?_, ?_, ?_, ?_⟩
        · rw [hev, hps, htot]
        · rw [htot]
          exact progress_chain df.rows.length k
        · rw [hev, hps]
          exact no_dual_terminal _ Event.error (Or.inr rfl)
        · intro ht
          exact absurd ht (by simp)

/-- A 50-row dataset on which every remote fetch fails: the loop still
emits one progress value per row. -/
def fiftyRowInput : RunInput :=
  { filePath := "dados.xlsx"
    fields := ["nome"]
    loadResult := some ⟨["CNPJ", "nome"], List.replicate 50 [("CNPJ", "1")]⟩
    cacheFile := CacheFile.missing
    remote := fun _ => FetchOutcome.transportError
    now := 0
    writeOk := true }

/-- Counterexample to C6 as stated: the claim's formula
`floor((rowIndex + 1) / totalRows * 100)` read as exact rational
arithmetic gives 58 at row index 28 of 50, but the program computes the
expression in binary64, where `29 / 50` rounds below the exact ratio and
the emitted value is 57. -/
theorem C6_counterexample :
    (CNPJProcessor.run fiftyRowInput).events.get? 28 = some (Event.progress 57) ∧
    (28 + 1) * 100 / 50 = 58 ∧ (57 : Nat) ≠ 58 :=
  ⟨rfl, rfl, by decide⟩

/-! ## Claim C1: column frame effect of the field merge -/

/-- Column evolution of the merge loop of lines 67-69: every selected key
present in the payload and absent from the column list is appended, in
selection order. -/
lemma updateFields_cols_aux (data : Payload) :
    ∀ (fields : List String) (row : Row) (cols : List String), fields.Nodup →
      (updateFields fields data row cols).2
        = cols ++ fields.filter (fun k => (List.lookup k data).isSome && !(decide (k ∈ cols))) := by
  intro fields
  induction fields with
  | nil =>
    intro row cols _
    simp [updateFields]
  | cons k rest ih =>
    intro row cols hnd
    rcases List.nodup_cons.mp hnd with ⟨hk, hrest⟩
    rw [List.filter_cons]
    cases hlk : List.lookup k data with
    | none =>
      simp only [updateFields, hlk]
      rw [ih _ _ hrest]
      simp [hlk]
    | some v =>
      by_cases hmem : k ∈ cols
      · simp only [updateFields, hlk, if_pos hmem]
        rw [ih _ _ hrest]
        simp [hlk, hmem]
      · simp only [updateFields, hlk, if_neg hmem]
        rw [ih _ _ hrest]
        have hcong : rest.filter
              (fun j => (List.lookup j data).isSome && !(decide (j ∈ cols ++ [k])))
            = rest.filter (fun j => (List.lookup j data).isSome && !(decide (j ∈ cols))) := by
          refine List.filter_congr ?_
          intro j hj
          have hjk : j ≠ k := fun he => hk (he ▸ hj)
          have hiff : (j ∈ cols ++ [k]) ↔ (j ∈ cols) := by simp [hjk]
          simp [hiff]
        rw [hcong]
        simp [hlk, hmem, List.append_assoc]

/-- Claim C1 (amended): the merge of lines 67-69 writes every selected key
present in the payload into that column, creating the column when it does
not already exist (pandas assignment-with-enlargement); the output column
list is the input column list extended, in selection order, by exactly the
selected payload keys that were not columns — it equals the input exactly
when every selected payload key already is a column. -/
theorem C1_columns_amended (fields : List String) (data : Payload) (row : Row)
    (cols : List String) (hnd : fields.Nodup) :
    (updateFields fields data row cols).2
      = cols ++ fields.filter (fun k => (List.lookup k data).isSome && !(decide (k ∈ cols))) :=
  updateFields_cols_aux data fields row cols hnd

/-- Claim C1 witness: on a dataset with only a `CNPJ` column, selecting the
payload field `nome` appends a `nome` column. -/
theorem C1_columns_amended_witness :
    (updateFields ["nome"] [("nome", "Acme")] [("CNPJ", "1234")] ["CNPJ"]).2
      = ["CNPJ"] ++ (["nome"].filter
          (fun k => (List.lookup k [("nome", "Acme")]).isSome && !(decide (k ∈ ["CNPJ"])))) :=
  C1_columns_amended ["nome"] [("nome", "Acme")] [("CNPJ", "1234")] ["CNPJ"] (by simp)

/-- A one-row dataset whose only column is `CNPJ`, with the caller
selecting the payload field `nome` and the remote returning it. -/
def enlargeInput : RunInput :=
  { filePath := "a.xlsx"
    fields := ["nome"]
    loadResult := some ⟨["CNPJ"], [[("CNPJ", "1234")]]⟩
    cacheFile := CacheFile.missing
    remote := fun _ => FetchOutcome.response ⟨200, some [("nome", "Acme")]⟩
    now := 0
    writeOk := true }

/-- Claim C1 counterexample: the claim says a selected payload key that is
not an existing column is dropped and the output column set equals the
input column set; running the pipeline on `enlargeInput` instead creates
the `nome` column, so the output columns `["CNPJ", "nome"]` differ from
the input columns `["CNPJ"]`. -/
theorem C1_counterexample :
    (CNPJProcessor.run enlargeInput).written
      = some ("a_atualizado.xlsx", ⟨["CNPJ", "nome"], [[("CNPJ", "1234"), ("nome", "Acme")]]⟩) ∧
    (["CNPJ", "nome"] : List String) ≠ ["CNPJ"] :=
  ⟨rfl, by simp⟩

/-! ## Claim C3: row-level exception isolation -/

/-- A two-row dataset without a `CNPJ` column: reading the identifier of
the first row raises before the loop ever bound the `cnpj` variable. -/
def noIdColumnInput : RunInput :=
  { filePath := "dados.xlsx"
    fields := ["nome"]
    loadResult := some ⟨["X"], [[("X", "a")], [("X", "b")]]⟩
    cacheFile := CacheFile.missing
    remote := fun _ => FetchOutcome.transportError
    now := 0
    writeOk := true }

/-- Claim C3 evaluation at the failing input: with a missing identifier
field the per-row handler itself raises (its log message reads the unbound
`cnpj` local), so instead of the claimed N progress events and a completed
run, the run aborts with a single failure signal, zero progress events and
no output file. -/
theorem C3_missing_identifier_aborts_run :
    (CNPJProcessor.run noIdColumnInput).events = [Event.error] ∧
    (CNPJProcessor.run noIdColumnInput).written = none :=
  ⟨rfl, rfl⟩

/-! ## Claim C7: derived output path -/

/-- Claim C7 (amended): whenever the run writes an output file, its path is
the input path with every occurrence of `".xlsx"` replaced by
`"_atualizado.xlsx"` (Python `str.replace` replaces all occurrences, not
only the extension suffix); for the usual input with a single trailing
`".xlsx"` this inserts the updated marker before the extension, as the
second conjunct shows concretely. The completion signal itself carries no
payload in the source (`process_finished = pyqtSignal()`); the output path
appears only in the log. -/
theorem C7_output_path_amended (inp : RunInput) (p : String) (df : Df)
    (h : (CNPJProcessor.run inp).written = some (p, df)) :
    p = pyReplace inp.filePath ".xlsx" "_atualizado.xlsx" ∧
    pyReplace "planilha.xlsx" ".xlsx" "_atualizado.xlsx" = "planilha_atualizado.xlsx" := by
  refine ⟨?_, rfl⟩
  unfold CNPJProcessor.run at h
  split at h
  · exact absurd h (by simp)
  · split at h
    · exact absurd h (by simp)
    · split at h
      · rw [Option.some_inj] at h
        exact (congrArg Prod.fst h).symm
      · exact absurd h (by simp)

/-- A zero-row dataset at the usual single-extension path, loading and
writing successfully. -/
def zeroRowInput : RunInput :=
  { filePath := "planilha.xlsx"
    fields := ["nome"]
    loadResult := some ⟨["CNPJ", "nome"], []⟩
    cacheFile := CacheFile.missing
    remote := fun _ => FetchOutcome.transportError
    now := 0
    writeOk := true }

/-- Claim C7 witness: the amended theorem at the concrete successful run on
`zeroRowInput`, whose output lands at `planilha_atualizado.xlsx`. -/
theorem C7_output_path_amended_witness :
    "planilha_atualizado.xlsx" = pyReplace zeroRowInput.filePath ".xlsx" "_atualizado.xlsx" ∧
    pyReplace "planilha.xlsx" ".xlsx" "_atualizado.xlsx" = "planilha_atualizado.xlsx" :=
  C7_output_path_amended zeroRowInput "planilha_atualizado.xlsx" ⟨["CNPJ", "nome"], []⟩ rfl

/-- An input whose path contains `".xlsx"` twice. -/
def doubleExtInput : RunInput :=
  { filePath := "relatorio.xlsx.xlsx"
    fields := ["nome"]
    loadResult := some ⟨["CNPJ", "nome"], []⟩
    cacheFile := CacheFile.missing
    remote := fun _ => FetchOutcome.transportError
    now := 0
    writeOk := true }

/-- Claim C7 counterexample: for the input path `relatorio.xlsx.xlsx` the
code rewrites every occurrence of the extension, producing
`relatorio_atualizado.xlsx_atualizado.xlsx` rather than the claimed
suffix-only replacement `relatorio.xlsx_atualizado.xlsx`. -/
theorem C7_counterexample :
    (CNPJProcessor.run doubleExtInput).written
      = some ("relatorio_atualizado.xlsx_atualizado.xlsx", ⟨["CNPJ", "nome"], []⟩) ∧
    "relatorio_atualizado.xlsx_atualizado.xlsx" ≠ "relatorio.xlsx_atualizado.xlsx" :=
  ⟨rfl, by decide⟩

/-! ## Claim C10: empty dataset -/

/-- Claim C10: on a dataset with zero rows the loop body — and with it the
division by `total_rows` — is never executed, so the run emits no progress
event, still writes the output file, and emits exactly one completion
signal. -/
theorem C10_zero_rows (inp : RunInput) (cols : List String)
    (hload : inp.loadResult = some ⟨cols, []⟩) (hw : inp.writeOk = true) :
    (CNPJProcessor.run inp).events = [Event.finished] ∧
    (CNPJProcessor.run inp).written
      = some (pyReplace inp.filePath ".xlsx" "_atualizado.xlsx", ⟨cols, []⟩) := by
  unfold CNPJProcessor.run
  rw [hload]
  simp only [runLoop_nil]
  simp [hw]

/-- Claim C10 witness: the zero-row run on `zeroRowInput`. -/
theorem C10_zero_rows_witness :
    (CNPJProcessor.run zeroRowInput).events = [Event.finished] ∧
    (CNPJProcessor.run zeroRowInput).written
      = some (pyReplace zeroRowInput.filePath ".xlsx" "_atualizado.xlsx",
          ⟨["CNPJ", "nome"], []⟩) :=
  C10_zero_rows zeroRowInput ["CNPJ", "nome"] rfl rfl
